import Mathlib

set_option maxRecDepth 10000

/- Formal model of scripts/compute_rfscore_features.py.

   The script is a batch driver: it reads a list of PDB identifiers, optionally
   filters them against a blacklist file, builds protein/ligand file paths with
   pathlib, maps an ODDT-based feature function over the identifiers with a
   joblib process pool, assembles the results into a pandas DataFrame keyed by
   identifier, and writes the table as CSV.

   The embedding below follows the Python source line by line.  Python
   exceptions are modelled with Except, Python dicts with insertion-ordered
   association lists, joblib.Parallel with a chunked map whose output is proved
   equal to the sequential map, and pathlib.PurePosixPath rendering with a
   segment model (empty and "." components dropped, a later absolute component
   resetting earlier ones), which covers every use the script makes of it. -/

namespace RFScore

/-- Python exceptions that the modelled code can raise. -/
inductive PyErr where
  | nameError
  | stopIteration
  | indexError
  | ioError
  deriving DecidableEq

/-- Sequential effectful map over a list, modelling a Python loop or
comprehension in which each element's computation may raise. -/
def exMapM {α β : Type} (f : α → Except PyErr β) : List α → Except PyErr (List β)
  | [] => Except.ok []
  | x :: xs =>
    match f x with
    | Except.error e => Except.error e
    | Except.ok y =>
      match exMapM f xs with
      | Except.error e => Except.error e
      | Except.ok ys => Except.ok (y :: ys)

/-- Whether an Except value is a success. -/
def exIsOk {α : Type} : Except PyErr α → Bool
  | Except.ok _ => true
  | Except.error _ => false

/-- Forget the error of an Except value. -/
def exToOption {α : Type} : Except PyErr α → Option α
  | Except.ok a => some a
  | Except.error _ => none

/-- Left-biased choice on options, used to describe lookups in appended
association lists. -/
def optOr {α : Type} : Option α → Option α → Option α
  | some a, _ => some a
  | none, b => b

/-- One Python dict update `d[k] = v`: if the key is present its value is
replaced in place (insertion position kept), otherwise the binding is appended. -/
def dictInsert {κ ν : Type} [DecidableEq κ] (k : κ) (v : ν) : List (κ × ν) → List (κ × ν)
  | [] => [(k, v)]
  | (a, b) :: rest => if a = k then (a, v) :: rest else (a, b) :: dictInsert k v rest

/-- Python dict built from a sequence of key/value pairs (dict comprehension):
keys keep first-occurrence order, a repeated key keeps its last value. -/
def dictOfPairs {κ ν : Type} [DecidableEq κ] (ps : List (κ × ν)) : List (κ × ν) :=
  ps.foldl (fun d p => dictInsert p.1 p.2 d) []

/-- Lookup in the association-list model of a Python dict. -/
def dictGet {κ ν : Type} [DecidableEq κ] (k : κ) : List (κ × ν) → Option ν
  | [] => none
  | (a, v) :: rest => if a = k then some v else dictGet k rest

/-- Accumulate keys in first-appearance order, skipping keys already seen;
this is how both Python dicts and the pandas index collect key order. -/
def insKeys {κ : Type} [DecidableEq κ] : List κ → List κ → List κ
  | acc, [] => acc
  | acc, k :: ks => insKeys (if k ∈ acc then acc else acc ++ [k]) ks

/-- Python str.strip(): drop leading and trailing whitespace. -/
def pyStrip (s : String) : String :=
  String.mk (((s.data.dropWhile Char.isWhitespace).reverse.dropWhile Char.isWhitespace).reverse)

/-- Split a character list at every slash (segments may be empty). -/
def splitCh : List Char → List (List Char)
  | [] => [[]]
  | c :: cs =>
    if c = '/' then [] :: splitCh cs
    else
      match splitCh cs with
      | [] => [[c]]
      | seg :: rest => (c :: seg) :: rest

/-- The path components pathlib keeps from one string argument: split on
slashes, dropping empty components and single dots. -/
def splitSlash (s : String) : List String :=
  ((splitCh s.data).map String.mk).filter (fun p => !(p == "") && !(p == "."))

/-- Whether a path string argument is absolute (starts with a slash). -/
def startsSlash (s : String) : Bool :=
  match s.data with
  | '/' :: _ => true
  | _ => false

/-- Join path components with single slashes. -/
def joinSegs : List String → String
  | [] => ""
  | [s] => s
  | s :: rest => s ++ "/" ++ joinSegs rest

/-- Fold pathlib's argument list into (is-absolute, kept components): a later
absolute argument discards everything before it. -/
def absSegs : List String → Bool × List String
  | [] => (false, [])
  | arg :: rest =>
    match absSegs rest with
    | (true, ps) => (true, ps)
    | (false, ps) => (startsSlash arg, splitSlash arg ++ ps)

/-- str(pathlib.Path(args...)) on POSIX: the rendered path, "." for an empty
relative path. -/
def strPath (args : List String) : String :=
  match absSegs args with
  | (b, []) => if b then "/" else "."
  | (b, s :: ss) => (if b then "/" else "") ++ joinSegs (s :: ss)

/-- A molecule as handed around by the script.  The payload is abstract; the
`protein` flag models the attribute the script sets before featurising. -/
structure Mol where
  raw : Nat
  protein : Bool
  deriving DecidableEq

/-- The configuration passed to oddt.scoring.descriptors.close_contacts_descriptor. -/
structure DescriptorConfig where
  cutoff : Nat
  ligand_types : List Nat
  protein_types : List Nat
  deriving DecidableEq

/-- External-toolkit interface (ODDT via OpenBabel), per the contract in spec
section 4.2: `readfile fmt path` yields the molecules of a structure file (or
raises), `titles cfg` is the descriptor's feature-name list — in ODDT it is
computed from the ligand/protein element-type configuration alone — and
`build cfg protein ligand` is the descriptor's feature row for one ligand
against the protein the engine was built with. -/
structure Toolkit where
  readfile : String → String → Except PyErr (List Mol)
  titles : DescriptorConfig → List String
  build : DescriptorConfig → Mol → Mol → Except PyErr (List Int)

/-- The fixed RF-Score descriptor configuration from the script:
cutoff 12, ligand types C,N,O,F,P,S,Cl,Br,I and protein types C,N,O,S as
atomic numbers. -/
def rfConfig : DescriptorConfig :=
  { cutoff := 12
    ligand_types := [6, 7, 8, 9, 15, 16, 17, 35, 53]
    protein_types := [6, 7, 8, 16] }

/-- Python next() on an iterator of molecules: StopIteration when exhausted. -/
def pyNext {α : Type} : List α → Except PyErr α
  | [] => Except.error PyErr.stopIteration
  | x :: _ => Except.ok x

/-- featurise(protein_file, ligand_file) from the script: read the first
molecule of each file, mark the protein as a protein, build the close-contact
descriptor with the fixed configuration, and zip titles with the built row
into a dict. -/
def featurise (tk : Toolkit) (protein_file ligand_file : String) :
    Except PyErr (List (String × Int)) :=
  match tk.readfile "pdb" protein_file with
  | Except.error e => Except.error e
  | Except.ok proteinMols =>
    match pyNext proteinMols with
    | Except.error e => Except.error e
    | Except.ok p0 =>
      let protein : Mol := { p0 with protein := true }
      match tk.readfile "sdf" ligand_file with
      | Except.error e => Except.error e
      | Except.ok ligandMols =>
        match pyNext ligandMols with
        | Except.error e => Except.error e
        | Except.ok ligand =>
          match tk.build rfConfig protein ligand with
          | Except.error e => Except.error e
          | Except.ok row => Except.ok (dictOfPairs ((tk.titles rfConfig).zip row))

/-- The command-line arguments after docopt parsing.  `blacklist_file` is None
when the optional positional argument is omitted. -/
structure Args where
  pdb_list_file : String
  pdbbind_dir : String
  output_file : String
  blacklist_file : Option String
  verbose : Bool
  num_cores : Int

/-- Python truthiness of an optional string (None and "" are falsy). -/
def truthy : Option String → Bool
  | none => false
  | some s => s ≠ ""

/-- open(path) followed by reading the lines: raises when the file is absent.
A file system is modelled as an optional-valued map from path to the list of lines. -/
def openLines (fs : String → Option (List String)) (path : String) :
    Except PyErr (List String) :=
  match fs path with
  | none => Except.error PyErr.ioError
  | some ls => Except.ok ls

/-- str(pathlib.Path(pdbbind_dir, pdb, pdb + "_protein.pdb")), the value stored
in the protein_files dict for a pdb code. -/
def proteinFile (pdbbind_dir pdb : String) : String :=
  strPath [pdbbind_dir, pdb, pdb ++ "_protein.pdb"]

/-- str(pathlib.Path(pdbbind_dir, pdb, pdb + "_ligand.sdf")), the value stored
in the ligand_files dict for a pdb code. -/
def ligandFile (pdbbind_dir pdb : String) : String :=
  strPath [pdbbind_dir, pdb, pdb ++ "_ligand.sdf"]

/-- The identifier list the script ends up iterating over: the stripped lines
of pdb_list_file; then, if a blacklist file is supplied (truthy), the script
evaluates os.path.join(blacklist_file) — but the module never imports os, so
that line raises NameError before any filtering happens. -/
def driverPdbs (fs : String → Option (List String)) (args : Args) :
    Except PyErr (List String) :=
  match openLines fs args.pdb_list_file with
  | Except.error e => Except.error e
  | Except.ok ls =>
    let pdbs := ls.map pyStrip
    if truthy args.blacklist_file then Except.error PyErr.nameError
    else Except.ok pdbs

/-- Number of worker processes joblib uses for a given n_jobs value
(-1 means all cores). -/
def nWorkers (cpus : Nat) (n_jobs : Int) : Nat :=
  if 0 < n_jobs then n_jobs.toNat else cpus

/-- Contiguous batches of size c+1 (fuel-driven recursion on the length). -/
def chunksGo {α : Type} (c : Nat) : Nat → List α → List (List α)
  | _, [] => []
  | 0, xs => [xs]
  | fuel + 1, xs => xs.take (c + 1) :: chunksGo c fuel (xs.drop (c + 1))

/-- Split the task list into the contiguous batches handed to the workers. -/
def chunksOf {α : Type} (c : Nat) (xs : List α) : List (List α) :=
  chunksGo c xs.length xs

/-- joblib.Parallel over delayed tasks: the tasks are dealt out to workers in
batches whose size depends on the worker count, each worker runs its batch,
and the results are reassembled in task order; an exception in any task is
re-raised.  Which batching is used is irrelevant: the parallel map is proved
equal to the sequential one below. -/
def parallelMapE {α β : Type} (workers : Nat) (f : α → Except PyErr β)
    (xs : List α) : Except PyErr (List β) :=
  match exMapM (fun c => exMapM f c) (chunksOf (xs.length / max 1 workers) xs) with
  | Except.error e => Except.error e
  | Except.ok outs => Except.ok outs.flatten

/-- One delayed task of the parallel map: featurise applied to the protein and
ligand paths the script builds for a pdb code (looked up in the protein_files
and ligand_files dicts, whose value for a code is exactly this path). -/
def featTask (tk : Toolkit) (pdbbind_dir : String) (pdb : String) :
    Except PyErr (List (String × Int)) :=
  featurise tk (proteinFile pdbbind_dir pdb) (ligandFile pdbbind_dir pdb)

/-- The features dict of the script: pdb codes zipped with their parallel map
results, collected into a Python dict. -/
def driverFeatures (cpus : Nat) (tk : Toolkit) (fs : String → Option (List String))
    (args : Args) : Except PyErr (List (String × List (String × Int))) :=
  match driverPdbs fs args with
  | Except.error e => Except.error e
  | Except.ok pdbs =>
    match parallelMapE (nWorkers cpus args.num_cores)
        (featTask tk args.pdbbind_dir) pdbs with
    | Except.error e => Except.error e
    | Except.ok results => Except.ok (dictOfPairs (pdbs.zip results))

/-- The CSV written by DataFrame.to_csv: a header of column names and one row
per identifier, a missing cell being NaN (None). -/
structure Csv where
  header : List String
  rows : List (String × List (Option Int))
  deriving DecidableEq

/-- Column order of pd.DataFrame.from_dict(features).T: the union of the
per-row feature names in order of first appearance (the rows of this script
all share one key list, for which pandas keeps that order). -/
def colUnion (features : List (String × List (String × Int))) : List String :=
  features.foldl (fun acc r => insKeys acc (r.2.map Prod.fst)) []

/-- pd.DataFrame.from_dict(features).T rendered as CSV: rows keyed by the
outer dict keys in order, cells looked up per column name. -/
def dataFrameCsv (features : List (String × List (String × Int))) : Csv :=
  { header := colUnion features
    rows := features.map (fun r => (r.1, (colUnion features).map (fun c => dictGet c r.2))) }

/-- The whole __main__ block after argument parsing: the content written to
output_file, or the exception that aborted the run. -/
def driverRun (cpus : Nat) (tk : Toolkit) (fs : String → Option (List String))
    (args : Args) : Except PyErr Csv :=
  match driverFeatures cpus tk fs args with
  | Except.error e => Except.error e
  | Except.ok features => Except.ok (dataFrameCsv features)

/-- A stand-in molecule for concrete runs. -/
def sampleMol : Mol := { raw := 0, protein := false }

/-- A toolkit whose reads and builds always succeed: every file holds one
molecule, the descriptor has the single title "6.6" and builds the row [3]. -/
def sampleTk : Toolkit :=
  { readfile := fun _ _ => Except.ok [sampleMol]
    titles := fun _ => ["6.6"]
    build := fun _ _ _ => Except.ok [3] }

/-- A toolkit whose readfile yields no molecules, so next() raises
StopIteration: the model of a malformed structure file. -/
def brokenTk : Toolkit :=
  { readfile := fun _ _ => Except.ok []
    titles := fun _ => ["6.6"]
    build := fun _ _ _ => Except.ok [3] }

/-- A file system holding one identifier-list file with a single code. -/
def fsOne : String → Option (List String) :=
  fun p => if p = "list.txt" then some ["1abc"] else none

/-- A file system whose identifier list repeats one code twice. -/
def fsDup : String → Option (List String) :=
  fun p => if p = "list.txt" then some ["1abc", "1abc"] else none

/-- A file system whose identifier list holds two distinct codes. -/
def fsTwo : String → Option (List String) :=
  fun p => if p = "list.txt" then some ["1abc", "2xyz"] else none

/-- A file system with an identifier list and a blacklist file. -/
def fsBl : String → Option (List String) :=
  fun p =>
    if p = "list.txt" then some ["1abc", "2xyz"]
    else if p = "bl.txt" then some ["1abc"] else none

/-- A file system whose identifier list holds only blank lines. -/
def fsBlank : String → Option (List String) :=
  fun p => if p = "list.txt" then some [" \t", ""] else none

/-- Command-line arguments for the concrete runs, with the given blacklist
argument and worker count. -/
def mkArgs (bl : Option String) (nj : Int) : Args :=
  ⟨"list.txt", "data", "out.csv", bl, false, nj⟩

section DictLemmas

variable {κ ν : Type} [DecidableEq κ]

theorem dictGet_dictInsert (k a : κ) (v : ν) (d : List (κ × ν)) :
    dictGet k (dictInsert a v d) = if k = a then some v else dictGet k d := by
  induction d with
  | nil =>
    by_cases hka : k = a
    · simp [dictInsert, dictGet, hka]
    · have hak : ¬ a = k := fun h => hka h.symm
      simp [dictInsert, dictGet, hka, hak]
  | cons hd tl ih =>
    obtain ⟨x, b⟩ := hd
    by_cases hxa : x = a
    · subst hxa
      by_cases hkx : k = x
      · simp [dictInsert, dictGet, hkx]
      · have hxk : ¬ x = k := fun h => hkx h.symm
        simp [dictInsert, dictGet, hkx, hxk]
    · simp only [dictInsert, if_neg hxa]
      by_cases hxk : x = k
      · have hka : ¬ k = a := fun h => hxa (hxk.trans h)
        simp [dictGet, hxk, hka]
      · simp [dictGet, hxk, ih]

theorem dictGet_append (k : κ) (l l' : List (κ × ν)) :
    dictGet k (l ++ l') = optOr (dictGet k l) (dictGet k l') := by
  induction l with
  | nil => simp [dictGet, optOr]
  | cons hd tl ih =>
    obtain ⟨a, v⟩ := hd
    by_cases h : a = k
    · simp [dictGet, h, optOr]
    · simp [dictGet, h, ih]

theorem dictGet_foldl (k : κ) (ps : List (κ × ν)) :
    ∀ d : List (κ × ν),
      dictGet k (ps.foldl (fun dd p => dictInsert p.1 p.2 dd) d) =
        optOr (dictGet k ps.reverse) (dictGet k d) := by
  induction ps with
  | nil => intro d; simp [dictGet, optOr]
  | cons hd tl ih =>
    intro d
    obtain ⟨a, v⟩ := hd
    have h1 := ih (dictInsert a v d)
    simp only [List.foldl_cons] at h1 ⊢
    rw [h1, dictGet_dictInsert]
    have h2 : dictGet k ((tl.reverse) ++ [(a, v)]) =
        optOr (dictGet k tl.reverse) (dictGet k [(a, v)]) := dictGet_append k _ _
    simp only [List.reverse_cons, h2]
    cases hres : dictGet k tl.reverse with
    | some w => simp [optOr]
    | none =>
      by_cases hka : k = a
      · simp [optOr, dictGet, hka]
      · have : ¬ a = k := fun h => hka h.symm
        simp [optOr, dictGet, hka, this]

theorem dictGet_dictOfPairs (k : κ) (ps : List (κ × ν)) :
    dictGet k (dictOfPairs ps) = dictGet k ps.reverse := by
  have h := dictGet_foldl k ps []
  simp only [dictOfPairs, h, dictGet]
  cases dictGet k ps.reverse <;> simp [optOr]

theorem keys_dictInsert (a : κ) (v : ν) (d : List (κ × ν)) :
    (dictInsert a v d).map Prod.fst =
      if a ∈ d.map Prod.fst then d.map Prod.fst else d.map Prod.fst ++ [a] := by
  induction d with
  | nil => simp [dictInsert]
  | cons hd tl ih =>
    obtain ⟨x, b⟩ := hd
    by_cases hxa : x = a
    · subst hxa
      simp [dictInsert]
    · have hax : ¬ a = x := fun h => hxa h.symm
      simp only [dictInsert, if_neg hxa, List.map_cons, List.mem_cons, hax, false_or]
      by_cases hmem : a ∈ tl.map Prod.fst
      · simp [hmem, ih]
      · simp [hmem, ih]

theorem mem_dictInsert (q : κ × ν) (a : κ) (v : ν) (d : List (κ × ν))
    (h : q ∈ dictInsert a v d) : q = (a, v) ∨ q ∈ d := by
  induction d with
  | nil => simpa [dictInsert] using h
  | cons hd tl ih =>
    obtain ⟨x, b⟩ := hd
    by_cases hxa : x = a
    · subst hxa
      simp only [dictInsert, if_pos] at h
      rcases List.mem_cons.mp h with h1 | h1
      · exact Or.inl h1
      · exact Or.inr (List.mem_cons_of_mem _ h1)
    · simp only [dictInsert, if_neg hxa, List.mem_cons] at h
      rcases h with h1 | h1
      · exact Or.inr (by simp [h1])
      · rcases ih h1 with h' | h'
        · exact Or.inl h'
        · exact Or.inr (List.mem_cons_of_mem _ h')

theorem mem_foldl_dictInsert (q : κ × ν) (ps : List (κ × ν)) :
    ∀ d : List (κ × ν),
      q ∈ ps.foldl (fun dd p => dictInsert p.1 p.2 dd) d → q ∈ d ∨ q ∈ ps := by
  induction ps with
  | nil => intro d hq; exact Or.inl (by simpa using hq)
  | cons hd tl ih =>
    intro d hq
    simp only [List.foldl_cons] at hq
    rcases ih (dictInsert hd.1 hd.2 d) hq with h' | h'
    · rcases mem_dictInsert q hd.1 hd.2 d h' with hA | hA
      · exact Or.inr (by simp [hA])
      · exact Or.inl hA
    · exact Or.inr (List.mem_cons_of_mem _ h')

theorem mem_dictOfPairs (q : κ × ν) (ps : List (κ × ν))
    (h : q ∈ dictOfPairs ps) : q ∈ ps := by
  rcases mem_foldl_dictInsert q ps [] h with h' | h'
  · simp at h'
  · exact h'

theorem dictInsert_of_not_mem (a : κ) (v : ν) (d : List (κ × ν))
    (h : a ∉ d.map Prod.fst) : dictInsert a v d = d ++ [(a, v)] := by
  induction d with
  | nil => simp [dictInsert]
  | cons hd tl ih =>
    obtain ⟨x, b⟩ := hd
    simp only [List.map_cons, List.mem_cons] at h
    push_neg at h
    have hxa : ¬ x = a := fun hh => h.1 hh.symm
    simp [dictInsert, hxa, ih h.2]

theorem foldl_dictInsert_of_disjoint (ps : List (κ × ν)) :
    ∀ d : List (κ × ν),
      (ps.map Prod.fst).Nodup →
      (∀ k ∈ ps.map Prod.fst, k ∉ d.map Prod.fst) →
      ps.foldl (fun dd p => dictInsert p.1 p.2 dd) d = d ++ ps := by
  induction ps with
  | nil => intro d _ _; simp
  | cons hd tl ih =>
    intro d hnd hdisj
    obtain ⟨a, v⟩ := hd
    simp only [List.map_cons, List.nodup_cons] at hnd
    have hain : a ∉ d.map Prod.fst := hdisj a (by simp)
    simp only [List.foldl_cons]
    rw [dictInsert_of_not_mem a v d hain]
    have hstep : ∀ k ∈ tl.map Prod.fst, k ∉ (d ++ [(a, v)]).map Prod.fst := by
      intro k hk
      simp only [List.map_append, List.mem_append, List.map_cons, List.map_nil,
        List.mem_singleton]
      push_neg
      constructor
      · exact fun hkd => hdisj k (by simp [hk]) hkd
      · intro hka
        exact hnd.1 (hka ▸ hk)
    rw [ih (d ++ [(a, v)]) hnd.2 hstep]
    simp

theorem dictOfPairs_of_nodup (ps : List (κ × ν))
    (h : (ps.map Prod.fst).Nodup) : dictOfPairs ps = ps := by
  have := foldl_dictInsert_of_disjoint ps [] h (by simp)
  simpa [dictOfPairs] using this

theorem dictGet_eq_none_of_not_mem (a : κ) (d : List (κ × ν))
    (h : a ∉ d.map Prod.fst) : dictGet a d = none := by
  induction d with
  | nil => simp [dictGet]
  | cons hd tl ih =>
    obtain ⟨x, b⟩ := hd
    simp only [List.map_cons, List.mem_cons] at h
    push_neg at h
    have : ¬ x = a := fun hh => h.1 hh.symm
    simp [dictGet, this, ih h.2]

theorem keys_foldl_dictInsert (ps : List (κ × ν)) :
    ∀ d : List (κ × ν),
      (ps.foldl (fun dd p => dictInsert p.1 p.2 dd) d).map Prod.fst =
        insKeys (d.map Prod.fst) (ps.map Prod.fst) := by
  induction ps with
  | nil => intro d; simp [insKeys]
  | cons hd tl ih =>
    intro d
    simp only [List.foldl_cons, List.map_cons, insKeys]
    rw [ih (dictInsert hd.1 hd.2 d), keys_dictInsert]

theorem keys_dictOfPairs (ps : List (κ × ν)) :
    (dictOfPairs ps).map Prod.fst = insKeys [] (ps.map Prod.fst) := by
  simpa [dictOfPairs] using keys_foldl_dictInsert ps []

theorem insKeys_nodup (ks : List κ) :
    ∀ acc : List κ, acc.Nodup → (insKeys acc ks).Nodup := by
  induction ks with
  | nil => intro acc h; simpa [insKeys] using h
  | cons k ks ih =>
    intro acc h
    simp only [insKeys]
    by_cases hk : k ∈ acc
    · simpa [hk] using ih acc h
    · have hdisj : List.Disjoint acc [k] := by
        intro a ha hak
        simp only [List.mem_singleton] at hak
        exact hk (hak ▸ ha)
      have : (acc ++ [k]).Nodup := by
        rw [List.nodup_append]
        exact ⟨h, List.nodup_singleton k, hdisj⟩
      simpa [hk] using ih (acc ++ [k]) this

theorem insKeys_toFinset (ks : List κ) :
    ∀ acc : List κ, (insKeys acc ks).toFinset = acc.toFinset ∪ ks.toFinset := by
  induction ks with
  | nil => intro acc; simp [insKeys]
  | cons k ks ih =>
    intro acc
    simp only [insKeys]
    by_cases hk : k ∈ acc
    · rw [if_pos hk, ih acc]
      have : insert k acc.toFinset = acc.toFinset :=
        Finset.insert_eq_self.mpr (List.mem_toFinset.mpr hk)
      simp [List.toFinset_cons, Finset.union_insert, ← Finset.insert_union, this]
    · rw [if_neg hk, ih (acc ++ [k])]
      rw [List.toFinset_append, List.toFinset_cons, Finset.insert_eq,
        List.toFinset_cons, Finset.insert_eq]
      simp [Finset.union_assoc, Finset.union_left_comm, Finset.union_comm]

end DictLemmas

section MapLemmas

variable {α β : Type}

theorem exMapM_append (f : α → Except PyErr β) (xs ys : List α) :
    exMapM f (xs ++ ys) =
      match exMapM f xs with
      | Except.error e => Except.error e
      | Except.ok as =>
        match exMapM f ys with
        | Except.error e => Except.error e
        | Except.ok bs => Except.ok (as ++ bs) := by
  induction xs with
  | nil =>
    simp only [List.nil_append, exMapM]
    cases exMapM f ys <;> simp
  | cons x xs ih =>
    cases hfx : f x with
    | error e => simp [exMapM, hfx]
    | ok y =>
      cases hxs : exMapM f xs with
      | error e =>
        rw [hxs] at ih
        simp only at ih
        simp [exMapM, hfx, hxs, ih]
      | ok as =>
        rw [hxs] at ih
        simp only at ih
        cases hys : exMapM f ys with
        | error e =>
          rw [hys] at ih
          simp only at ih
          simp [exMapM, hfx, hxs, hys, ih]
        | ok bs =>
          rw [hys] at ih
          simp only at ih
          simp [exMapM, hfx, hxs, hys, ih]

theorem exMapM_flatten (f : α → Except PyErr β) (css : List (List α)) :
    exMapM f css.flatten =
      match exMapM (fun c => exMapM f c) css with
      | Except.error e => Except.error e
      | Except.ok outs => Except.ok outs.flatten := by
  induction css with
  | nil => simp [exMapM]
  | cons c css ih =>
    cases hc : exMapM f c with
    | error e =>
      simp [List.flatten_cons, exMapM_append, hc, exMapM]
    | ok as =>
      cases hcss : exMapM (fun c => exMapM f c) css with
      | error e =>
        rw [hcss] at ih
        simp only at ih
        simp [List.flatten_cons, exMapM_append, hc, exMapM, hcss, ih]
      | ok outs =>
        rw [hcss] at ih
        simp only at ih
        simp [List.flatten_cons, exMapM_append, hc, exMapM, hcss, ih]

theorem chunksGo_flatten (c : Nat) :
    ∀ (fuel : Nat) (xs : List α), (chunksGo c fuel xs).flatten = xs := by
  intro fuel
  induction fuel with
  | zero => intro xs; cases xs <;> simp [chunksGo]
  | succ fuel ih =>
    intro xs
    cases xs with
    | nil => simp [chunksGo]
    | cons x xs =>
      simp [chunksGo, ih]

theorem chunksOf_flatten (c : Nat) (xs : List α) : (chunksOf c xs).flatten = xs :=
  chunksGo_flatten c xs.length xs

theorem parallelMapE_eq_exMapM (workers : Nat) (f : α → Except PyErr β)
    (xs : List α) : parallelMapE workers f xs = exMapM f xs := by
  unfold parallelMapE
  have h := exMapM_flatten f (chunksOf (xs.length / max 1 workers) xs)
  rw [chunksOf_flatten] at h
  rw [h]

theorem exMapM_ok_forall₂ (f : α → Except PyErr β) :
    ∀ (xs : List α) (ys : List β), exMapM f xs = Except.ok ys →
      List.Forall₂ (fun x y => f x = Except.ok y) xs ys := by
  intro xs
  induction xs with
  | nil =>
    intro ys h
    simp only [exMapM] at h
    cases h
    exact List.Forall₂.nil
  | cons x xs ih =>
    intro ys h
    simp only [exMapM] at h
    cases hfx : f x with
    | error e => rw [hfx] at h; cases h
    | ok y =>
      rw [hfx] at h
      cases hrest : exMapM f xs with
      | error e => rw [hrest] at h; cases h
      | ok ys' =>
        rw [hrest] at h
        cases h
        exact List.Forall₂.cons hfx (ih ys' hrest)

theorem exMapM_not_ok_of_mem (f : α → Except PyErr β) (x : α) (e : PyErr) :
    ∀ xs : List α, x ∈ xs → f x = Except.error e →
      exIsOk (exMapM f xs) = false := by
  intro xs
  induction xs with
  | nil => intro h; simp at h
  | cons y ys ih =>
    intro hmem hfx
    rcases List.mem_cons.mp hmem with h1 | h1
    · subst h1
      simp [exMapM, hfx, exIsOk]
    · simp only [exMapM]
      cases f y with
      | error e' => simp [exIsOk]
      | ok v =>
        have := ih h1 hfx
        cases hys : exMapM f ys with
        | error e' => simp [exIsOk]
        | ok vs => rw [hys] at this; simp [exIsOk] at this

end MapLemmas

section ZipLemmas

variable {κ β : Type} [DecidableEq κ]

theorem dictGet_zip_reverse_of_forall₂ (F : κ → Except PyErr β)
    (xs : List κ) (ys : List β)
    (h : List.Forall₂ (fun x y => F x = Except.ok y) xs ys) :
    ∀ a ∈ xs, ∃ r, F a = Except.ok r ∧ dictGet a ((xs.zip ys).reverse) = some r := by
  induction h with
  | nil => intro a ha; simp at ha
  | @cons x y xs ys hxy htail ih =>
    intro a ha
    rcases List.mem_cons.mp ha with h1 | h1
    · subst h1
      by_cases hmem : a ∈ xs
      · obtain ⟨r, hFr, hget⟩ := ih a hmem
        refine ⟨r, hFr, ?_⟩
        rw [List.zip_cons_cons, List.reverse_cons, dictGet_append, hget]
        rfl
      · refine ⟨y, hxy, ?_⟩
        have hkeys : (xs.zip ys).map Prod.fst = xs :=
          List.map_fst_zip xs ys (le_of_eq htail.length_eq)
        have hnone : dictGet a ((xs.zip ys).reverse) = none := by
          apply dictGet_eq_none_of_not_mem
          rw [List.map_reverse, hkeys]
          simpa using hmem
        rw [List.zip_cons_cons, List.reverse_cons, dictGet_append, hnone]
        simp [optOr, dictGet]
    · obtain ⟨r, hFr, hget⟩ := ih a h1
      refine ⟨r, hFr, ?_⟩
      rw [List.zip_cons_cons, List.reverse_cons, dictGet_append, hget]
      rfl

theorem dictGet_dictOfPairs_zip (F : κ → Except PyErr β)
    (xs : List κ) (ys : List β)
    (h : List.Forall₂ (fun x y => F x = Except.ok y) xs ys)
    (a : κ) (ha : a ∈ xs) :
    ∃ r, F a = Except.ok r ∧ dictGet a (dictOfPairs (xs.zip ys)) = some r := by
  obtain ⟨r, hFr, hget⟩ := dictGet_zip_reverse_of_forall₂ F xs ys h a ha
  exact ⟨r, hFr, by rw [dictGet_dictOfPairs, hget]⟩

theorem dictGet_map_value {ν μ : Type} (G : ν → μ) (k : κ) (l : List (κ × ν)) :
    dictGet k (l.map (fun r => (r.1, G r.2))) = Option.map G (dictGet k l) := by
  induction l with
  | nil => simp [dictGet]
  | cons hd tl ih =>
    obtain ⟨a, v⟩ := hd
    by_cases h : a = k
    · simp [dictGet, h]
    · simp [dictGet, h, ih]

end ZipLemmas

section PathLemmas

theorem joinSegs_cons_cons (x y : String) (ys : List String) :
    joinSegs (x :: y :: ys) = x ++ "/" ++ joinSegs (y :: ys) := by
  simp [joinSegs]

theorem joinSegs_append_cons (x : String) (xs : List String) (y : String)
    (ys : List String) :
    joinSegs ((x :: xs) ++ (y :: ys)) = joinSegs (x :: xs) ++ "/" ++ joinSegs (y :: ys) := by
  induction xs generalizing x with
  | nil => simp [joinSegs_cons_cons, joinSegs]
  | cons x2 xs2 ih =>
    have h2 := ih x2
    simp only [List.cons_append] at h2 ⊢
    rw [joinSegs_cons_cons, h2, joinSegs_cons_cons]
    simp [String.append_assoc]

theorem absSegs_single (root : String) :
    absSegs [root] = (startsSlash root, splitSlash root) := by
  simp [absSegs]

theorem strPath_root_parts (root : String) (rest : List String) (ps : List String)
    (hroot : strPath [root] = root) (h1 : root ≠ "/") (h2 : root ≠ ".")
    (hrest : absSegs rest = (false, ps)) (hps : ps ≠ []) :
    strPath (root :: rest) = root ++ "/" ++ joinSegs ps := by
  have habs : absSegs (root :: rest) = (startsSlash root, splitSlash root ++ ps) := by
    simp [absSegs, hrest]
  cases hsr : splitSlash root with
  | nil =>
    exfalso
    have hval : strPath [root] = if startsSlash root then "/" else "." := by
      simp [strPath, absSegs_single, hsr]
    rw [hroot] at hval
    cases hb : startsSlash root
    · rw [hb] at hval; simp at hval; exact h2 hval
    · rw [hb] at hval; simp at hval; exact h1 hval
  | cons s ss =>
    have hroot' : (if startsSlash root then "/" else "") ++ joinSegs (s :: ss) = root := by
      have hval : strPath [root] = (if startsSlash root then "/" else "") ++ joinSegs (s :: ss) := by
        simp [strPath, absSegs_single, hsr]
      rw [← hval, hroot]
    cases hpscons : ps with
    | nil => exact absurd rfl (hpscons ▸ hps)
    | cons p ps2 =>
      have hval2 : strPath (root :: rest) =
          (if startsSlash root then "/" else "") ++ joinSegs ((s :: ss) ++ (p :: ps2)) := by
        rw [hpscons] at habs
        simp [strPath, habs, hsr]
      rw [hval2, joinSegs_append_cons]
      conv_rhs => rw [← hroot']
      simp [String.append_assoc]

end PathLemmas

section DriverLemmas

theorem forall₂_mem_right {α β : Type} {R : α → β → Prop} {y : β} :
    ∀ {xs : List α} {ys : List β}, List.Forall₂ R xs ys → y ∈ ys →
      ∃ x, x ∈ xs ∧ R x y := by
  intro xs ys h
  induction h with
  | nil => intro hy; simp at hy
  | @cons x' y' xs ys hxy htail ih =>
    intro hy
    rcases List.mem_cons.mp hy with h1 | h1
    · exact ⟨x', by simp, h1 ▸ hxy⟩
    · obtain ⟨x, hx, hR⟩ := ih h1
      exact ⟨x, List.mem_cons_of_mem _ hx, hR⟩

theorem driverPdbs_no_blacklist (fs : String → Option (List String)) (args : Args)
    (lines : List String) (hfs : fs args.pdb_list_file = some lines)
    (hbl : args.blacklist_file = none) :
    driverPdbs fs args = Except.ok (lines.map pyStrip) := by
  simp [driverPdbs, openLines, hfs, hbl, truthy]

theorem driverFeatures_ok_decomp (cpus : Nat) (tk : Toolkit)
    (fs : String → Option (List String)) (args : Args)
    (feats : List (String × List (String × Int)))
    (h : driverFeatures cpus tk fs args = Except.ok feats) :
    ∃ pdbs results, driverPdbs fs args = Except.ok pdbs ∧
      exMapM (featTask tk args.pdbbind_dir) pdbs = Except.ok results ∧
      feats = dictOfPairs (pdbs.zip results) := by
  cases hp : driverPdbs fs args with
  | error e => simp [driverFeatures, hp] at h
  | ok pdbs =>
    cases hr : parallelMapE (nWorkers cpus args.num_cores)
        (featTask tk args.pdbbind_dir) pdbs with
    | error e => simp [driverFeatures, hp, hr] at h
    | ok results =>
      refine ⟨pdbs, results, rfl, ?_, ?_⟩
      · rw [← parallelMapE_eq_exMapM (nWorkers cpus args.num_cores)]
        exact hr
      · simp [driverFeatures, hp, hr] at h
        exact h.symm

theorem driverRun_ok_decomp (cpus : Nat) (tk : Toolkit)
    (fs : String → Option (List String)) (args : Args) (csv : Csv)
    (h : driverRun cpus tk fs args = Except.ok csv) :
    ∃ feats, driverFeatures cpus tk fs args = Except.ok feats ∧
      csv = dataFrameCsv feats := by
  cases hf : driverFeatures cpus tk fs args with
  | error e => simp [driverRun, hf] at h
  | ok feats =>
    refine ⟨feats, rfl, ?_⟩
    simp [driverRun, hf] at h
    exact h.symm

theorem featurise_ok_shape (tk : Toolkit) (pf lf : String)
    (res : List (String × Int)) (h : featurise tk pf lf = Except.ok res) :
    ∃ (pm lm : Mol) (row : List Int), tk.build rfConfig pm lm = Except.ok row ∧
      res = dictOfPairs ((tk.titles rfConfig).zip row) := by
  unfold featurise at h
  cases h1 : tk.readfile "pdb" pf with
  | error e => simp [h1] at h
  | ok pms =>
    simp only [h1] at h
    cases h2 : pyNext pms with
    | error e => simp [h2] at h
    | ok p0 =>
      simp only [h2] at h
      cases h3 : tk.readfile "sdf" lf with
      | error e => simp [h3] at h
      | ok lms =>
        simp only [h3] at h
        cases h4 : pyNext lms with
        | error e => simp [h4] at h
        | ok lm =>
          simp only [h4] at h
          cases h5 : tk.build rfConfig { p0 with protein := true } lm with
          | error e => simp [h5] at h
          | ok row =>
            simp only [h5, Except.ok.injEq] at h
            exact ⟨{ p0 with protein := true }, lm, row, h5, h.symm⟩

end DriverLemmas

/-- C1: the blacklist path of the driver is broken.  The claim says a supplied
blacklist file is read and its identifiers removed; in the script the branch
guarded by the blacklist argument evaluates os.path.join, but the module never
imports os, so any run with a blacklist file aborts with NameError before the
blacklist is opened — here on a list ["1abc", "2xyz"] with blacklist file
"bl.txt" containing "1abc", which the claim says should produce the filtered
list ["2xyz"]. -/
theorem c1_blacklist_run_raises_nameError :
    fsBl "bl.txt" = some ["1abc"] ∧
    driverRun 4 sampleTk fsBl (mkArgs (some "bl.txt") 1) =
      Except.error PyErr.nameError :=
  ⟨rfl, rfl⟩

/-- C2 as stated is false: an identifier-list file with two lines, both
"1abc", has 2 lines but the output table has a single row, because the
features dict collapses duplicate identifiers. -/
theorem c2_duplicate_lines_collapse_rows :
    fsDup "list.txt" = some ["1abc", "1abc"] ∧
    driverRun 4 sampleTk fsDup (mkArgs none 1) =
      Except.ok (⟨["6.6"], [("1abc", [some 3])]⟩ : Csv) ∧
    [("1abc", [some (3 : Int)])].length ≠ (["1abc", "1abc"] : List String).length :=
  ⟨rfl, rfl, by decide⟩

/-- C2 (amended): for an identifier-list file whose stripped lines are
pairwise distinct and no blacklist supplied, the output table has exactly one
row per input line and its row order equals the input order. -/
theorem c2_rows_match_input_order (cpus : Nat) (tk : Toolkit)
    (fs : String → Option (List String)) (args : Args)
    (lines : List String) (csv : Csv)
    (hfs : fs args.pdb_list_file = some lines)
    (hbl : args.blacklist_file = none)
    (hnd : (lines.map pyStrip).Nodup)
    (h : driverRun cpus tk fs args = Except.ok csv) :
    csv.rows.map Prod.fst = lines.map pyStrip ∧
    csv.rows.length = lines.length := by
  obtain ⟨feats, hf, hcsv⟩ := driverRun_ok_decomp cpus tk fs args csv h
  obtain ⟨pdbs, results, hp, hr, hfeats⟩ :=
    driverFeatures_ok_decomp cpus tk fs args feats hf
  rw [driverPdbs_no_blacklist fs args lines hfs hbl] at hp
  have hpdbs : pdbs = lines.map pyStrip := by
    injection hp with hp'
    exact hp'.symm
  have hlen : pdbs.length = results.length :=
    (exMapM_ok_forall₂ _ pdbs results hr).length_eq
  have hkeys : (pdbs.zip results).map Prod.fst = pdbs :=
    List.map_fst_zip pdbs results (le_of_eq hlen)
  have hfeats' : feats = pdbs.zip results := by
    rw [hfeats]
    exact dictOfPairs_of_nodup _ (by rw [hkeys, hpdbs]; exact hnd)
  have hrows : csv.rows.map Prod.fst = feats.map Prod.fst := by
    rw [hcsv]
    simp [dataFrameCsv]
  constructor
  · rw [hrows, hfeats', hkeys, hpdbs]
  · have : csv.rows.length = feats.length := by
      rw [hcsv]; simp [dataFrameCsv]
    rw [this, hfeats', List.length_zip, ← hlen, hpdbs]
    simp

/-- Witness for the amended C2 at a concrete run on the two-line list
["1abc", "2xyz"]. -/
theorem c2_rows_match_input_order_witness :
    (⟨["6.6"], [("1abc", [some 3]), ("2xyz", [some 3])]⟩ : Csv).rows.map Prod.fst =
      ["1abc", "2xyz"].map pyStrip ∧
    (⟨["6.6"], [("1abc", [some 3]), ("2xyz", [some 3])]⟩ : Csv).rows.length =
      (["1abc", "2xyz"] : List String).length :=
  c2_rows_match_input_order 4 sampleTk fsTwo (mkArgs none 1) ["1abc", "2xyz"]
    (⟨["6.6"], [("1abc", [some 3]), ("2xyz", [some 3])]⟩ : Csv)
    rfl rfl (by decide) rfl

/-- C3: for a fixed toolkit, file system and remaining arguments, two runs of
the driver that differ only in the worker-count option produce the same
output: joblib reassembles results in task order, so the batching chosen from
n_jobs never shows in the table. -/
theorem c3_output_independent_of_num_cores (cpus : Nat) (tk : Toolkit)
    (fs : String → Option (List String)) (plf dir out : String)
    (bl : Option String) (vb : Bool) (j j' : Int) :
    driverRun cpus tk fs ⟨plf, dir, out, bl, vb, j⟩ =
      driverRun cpus tk fs ⟨plf, dir, out, bl, vb, j'⟩ := by
  unfold driverRun driverFeatures
  simp only [parallelMapE_eq_exMapM]
  rfl

/-- C4: if the per-complex feature computation fails for any identifier of the
batch, the run yields no output value at all — the exception propagates, the
whole batch aborts, and the CSV (produced only from the complete result list)
is never written. -/
theorem c4_task_failure_aborts_batch (cpus : Nat) (tk : Toolkit)
    (fs : String → Option (List String)) (args : Args)
    (pdbs : List String) (id : String) (e : PyErr)
    (hp : driverPdbs fs args = Except.ok pdbs)
    (hid : id ∈ pdbs)
    (hfail : featTask tk args.pdbbind_dir id = Except.error e) :
    exIsOk (driverRun cpus tk fs args) = false := by
  have hmap : exIsOk (exMapM (featTask tk args.pdbbind_dir) pdbs) = false :=
    exMapM_not_ok_of_mem (featTask tk args.pdbbind_dir) id e pdbs hid hfail
  cases hr : exMapM (featTask tk args.pdbbind_dir) pdbs with
  | ok results => rw [hr] at hmap; simp [exIsOk] at hmap
  | error e2 =>
    have hpar : parallelMapE (nWorkers cpus args.num_cores)
        (featTask tk args.pdbbind_dir) pdbs = Except.error e2 := by
      rw [parallelMapE_eq_exMapM, hr]
    simp [driverRun, driverFeatures, hp, hpar, exIsOk]

/-- Witness for C4: with a toolkit whose file reads yield no molecule,
next() raises StopIteration on the single batch entry and the run aborts. -/
theorem c4_task_failure_aborts_batch_witness :
    exIsOk (driverRun 4 brokenTk fsOne (mkArgs none 1)) = false :=
  c4_task_failure_aborts_batch 4 brokenTk fsOne (mkArgs none 1) ["1abc"] "1abc"
    PyErr.stopIteration rfl (by decide) rfl

/-- C5: in a successful run, the output row labelled by a surviving identifier
is exactly the featurise result for that identifier's protein and ligand file
paths, rendered cell by cell under the header of feature names, with the
identifier as the row label. -/
theorem c5_row_is_featurise_result (cpus : Nat) (tk : Toolkit)
    (fs : String → Option (List String)) (args : Args) (csv : Csv)
    (pdbs : List String) (id : String)
    (h : driverRun cpus tk fs args = Except.ok csv)
    (hp : driverPdbs fs args = Except.ok pdbs)
    (hid : id ∈ pdbs) :
    exIsOk (featurise tk (proteinFile args.pdbbind_dir id)
      (ligandFile args.pdbbind_dir id)) = true ∧
    dictGet id csv.rows =
      Option.map (fun r => csv.header.map (fun c => dictGet c r))
        (exToOption (featurise tk (proteinFile args.pdbbind_dir id)
          (ligandFile args.pdbbind_dir id))) := by
  obtain ⟨feats, hf, hcsv⟩ := driverRun_ok_decomp cpus tk fs args csv h
  obtain ⟨pdbs', results, hp', hr, hfeats⟩ :=
    driverFeatures_ok_decomp cpus tk fs args feats hf
  have hpdbs : pdbs' = pdbs := by
    rw [hp] at hp'
    injection hp' with hpx
    exact hpx.symm
  subst hpdbs
  have hfa := exMapM_ok_forall₂ (featTask tk args.pdbbind_dir) pdbs' results hr
  obtain ⟨r, hFr, hget⟩ :=
    dictGet_dictOfPairs_zip (featTask tk args.pdbbind_dir) pdbs' results hfa id hid
  have hgetf : dictGet id feats = some r := by rw [hfeats]; exact hget
  have hrows : dictGet id csv.rows =
      Option.map (fun v => (colUnion feats).map (fun c => dictGet c v))
        (dictGet id feats) := by
    rw [hcsv]
    exact dictGet_map_value (fun v => (colUnion feats).map (fun c => dictGet c v)) id feats
  constructor
  · rw [show featurise tk (proteinFile args.pdbbind_dir id)
        (ligandFile args.pdbbind_dir id) = featTask tk args.pdbbind_dir id from rfl,
      hFr]
    rfl
  · rw [show featurise tk (proteinFile args.pdbbind_dir id)
        (ligandFile args.pdbbind_dir id) = featTask tk args.pdbbind_dir id from rfl,
      hFr, hrows, hgetf]
    simp [exToOption, hcsv, dataFrameCsv]

/-- Witness for C5 at a concrete run: the row labelled "1abc". -/
theorem c5_row_is_featurise_result_witness :
    exIsOk (featurise sampleTk (proteinFile "data" "1abc")
      (ligandFile "data" "1abc")) = true ∧
    dictGet "1abc" (⟨["6.6"], [("1abc", [some 3]), ("2xyz", [some 3])]⟩ : Csv).rows =
      Option.map
        (fun r => (⟨["6.6"], [("1abc", [some 3]), ("2xyz", [some 3])]⟩ : Csv).header.map
          (fun c => dictGet c r))
        (exToOption (featurise sampleTk (proteinFile "data" "1abc")
          (ligandFile "data" "1abc"))) :=
  c5_row_is_featurise_result 4 sampleTk fsTwo (mkArgs none 1)
    (⟨["6.6"], [("1abc", [some 3]), ("2xyz", [some 3])]⟩ : Csv)
    ["1abc", "2xyz"] "1abc" rfl rfl (by decide)

/-- C6 as stated is false at the empty identifier: pathlib drops empty path
components, so the driver builds root/_protein.pdb for the empty id, not the
root//_protein.pdb the template <root>/<id>/<id>_protein.pdb denotes. -/
theorem c6_template_fails_for_empty_id :
    proteinFile "root" "" = "root/_protein.pdb" ∧
    proteinFile "root" "" ≠ "root" ++ "/" ++ "" ++ "/" ++ ("" ++ "_protein.pdb") :=
  ⟨rfl, by decide⟩

/-- C6 (amended): for a root in pathlib normal form (other than "/" and ".")
and an identifier that is a plain path segment — nonempty, not ".", free of
slashes, as every real PDB code is — the driver builds exactly
<root>/<id>/<id>_protein.pdb and <root>/<id>/<id>_ligand.sdf. -/
theorem c6_paths_follow_layout (root id : String)
    (hroot : strPath [root] = root) (h1 : root ≠ "/") (h2 : root ≠ ".")
    (hid : splitSlash id = [id]) (hids : startsSlash id = false)
    (hpr : splitSlash (id ++ "_protein.pdb") = [id ++ "_protein.pdb"])
    (hprs : startsSlash (id ++ "_protein.pdb") = false)
    (hlg : splitSlash (id ++ "_ligand.sdf") = [id ++ "_ligand.sdf"])
    (hlgs : startsSlash (id ++ "_ligand.sdf") = false) :
    proteinFile root id = root ++ "/" ++ id ++ "/" ++ (id ++ "_protein.pdb") ∧
    ligandFile root id = root ++ "/" ++ id ++ "/" ++ (id ++ "_ligand.sdf") := by
  constructor
  · have habs : absSegs [id, id ++ "_protein.pdb"] =
        (false, [id, id ++ "_protein.pdb"]) := by
      simp [absSegs, hid, hids, hpr, hprs]
    have hsp := strPath_root_parts root [id, id ++ "_protein.pdb"]
      [id, id ++ "_protein.pdb"] hroot h1 h2 habs (by simp)
    rw [proteinFile, hsp, joinSegs_cons_cons]
    simp [joinSegs, String.append_assoc]
  · have habs : absSegs [id, id ++ "_ligand.sdf"] =
        (false, [id, id ++ "_ligand.sdf"]) := by
      simp [absSegs, hid, hids, hlg, hlgs]
    have hsp := strPath_root_parts root [id, id ++ "_ligand.sdf"]
      [id, id ++ "_ligand.sdf"] hroot h1 h2 habs (by simp)
    rw [ligandFile, hsp, joinSegs_cons_cons]
    simp [joinSegs, String.append_assoc]

/-- Witness for the amended C6 at root "data" and identifier "1abc". -/
theorem c6_paths_follow_layout_witness :
    proteinFile "data" "1abc" =
      "data" ++ "/" ++ "1abc" ++ "/" ++ ("1abc" ++ "_protein.pdb") ∧
    ligandFile "data" "1abc" =
      "data" ++ "/" ++ "1abc" ++ "/" ++ ("1abc" ++ "_ligand.sdf") :=
  c6_paths_follow_layout "data" "1abc" rfl (by decide) (by decide) rfl rfl rfl
    rfl rfl rfl

/-- C7: featurise consults the external descriptor only at the fixed
configuration — cutoff 12, ligand types C,N,O,F,P,S,Cl,Br,I as atomic numbers
[6,7,8,9,15,16,17,35,53] and protein types C,N,O,S as [6,7,8,16]: two
toolkits that read files identically and agree on the descriptor at exactly
that configuration featurise identically on every pair of file paths. -/
theorem c7_featurise_uses_fixed_config (tk tk' : Toolkit)
    (hread : ∀ fmt path, tk.readfile fmt path = tk'.readfile fmt path)
    (htitles :
      tk.titles ⟨12, [6, 7, 8, 9, 15, 16, 17, 35, 53], [6, 7, 8, 16]⟩ =
        tk'.titles ⟨12, [6, 7, 8, 9, 15, 16, 17, 35, 53], [6, 7, 8, 16]⟩)
    (hbuild : ∀ pm lm,
      tk.build ⟨12, [6, 7, 8, 9, 15, 16, 17, 35, 53], [6, 7, 8, 16]⟩ pm lm =
        tk'.build ⟨12, [6, 7, 8, 9, 15, 16, 17, 35, 53], [6, 7, 8, 16]⟩ pm lm)
    (pf lf : String) :
    featurise tk pf lf = featurise tk' pf lf := by
  unfold featurise
  simp only [show rfConfig =
      (⟨12, [6, 7, 8, 9, 15, 16, 17, 35, 53], [6, 7, 8, 16]⟩ : DescriptorConfig)
    from rfl, hread, htitles, hbuild]

/-- Witness for C7 with a concrete toolkit and file paths. -/
theorem c7_featurise_uses_fixed_config_witness :
    featurise sampleTk "data/1abc/1abc_protein.pdb" "data/1abc/1abc_ligand.sdf" =
      featurise sampleTk "data/1abc/1abc_protein.pdb" "data/1abc/1abc_ligand.sdf" :=
  c7_featurise_uses_fixed_config sampleTk sampleTk (fun _ _ => rfl) rfl
    (fun _ _ => rfl) "data/1abc/1abc_protein.pdb" "data/1abc/1abc_ligand.sdf"

/-- C8: under the external toolkit's contract that a built row has one value
per title, any two rows of one run's features table carry the same column-name
list, hence the same set of feature names. -/
theorem c8_rows_share_column_names (cpus : Nat) (tk : Toolkit)
    (fs : String → Option (List String)) (args : Args)
    (feats : List (String × List (String × Int)))
    (p q : String × List (String × Int))
    (hconf : ∀ pm lm row, tk.build rfConfig pm lm = Except.ok row →
        row.length = (tk.titles rfConfig).length)
    (h : driverFeatures cpus tk fs args = Except.ok feats)
    (hp : p ∈ feats) (hq : q ∈ feats) :
    p.2.map Prod.fst = q.2.map Prod.fst := by
  obtain ⟨pdbs, results, hpd, hr, hfeats⟩ :=
    driverFeatures_ok_decomp cpus tk fs args feats h
  have hfa := exMapM_ok_forall₂ (featTask tk args.pdbbind_dir) pdbs results hr
  have H : ∀ x, x ∈ feats → x.2.map Prod.fst = insKeys [] (tk.titles rfConfig) := by
    intro x hx
    have hx' : x ∈ pdbs.zip results :=
      mem_dictOfPairs x _ (by rw [← hfeats]; exact hx)
    have hxr : x.2 ∈ results := by
      have hmz := List.of_mem_zip (show (x.1, x.2) ∈ pdbs.zip results by
        simpa using hx')
      exact hmz.2
    obtain ⟨a, ha, hR⟩ := forall₂_mem_right hfa hxr
    have hR' : featurise tk (proteinFile args.pdbbind_dir a)
        (ligandFile args.pdbbind_dir a) = Except.ok x.2 := hR
    obtain ⟨pm, lm, row, hb, hres⟩ := featurise_ok_shape tk _ _ x.2 hR'
    have hrowlen : row.length = (tk.titles rfConfig).length := hconf pm lm row hb
    rw [hres, keys_dictOfPairs]
    congr 1
    exact List.map_fst_zip _ _ (le_of_eq hrowlen.symm)
  rw [H p hp, H q hq]

/-- Witness for C8 at a concrete two-row run. -/
theorem c8_rows_share_column_names_witness :
    (("1abc", [("6.6", (3 : Int))]) : String × List (String × Int)).2.map Prod.fst =
      (("2xyz", [("6.6", (3 : Int))]) : String × List (String × Int)).2.map Prod.fst :=
  c8_rows_share_column_names 4 sampleTk fsTwo (mkArgs none 1)
    [("1abc", [("6.6", 3)]), ("2xyz", [("6.6", 3)])]
    ("1abc", [("6.6", 3)]) ("2xyz", [("6.6", 3)])
    (fun pm lm row hb => by cases hb; rfl) rfl (by decide) (by decide)

/-- C9 as stated is false in its path part: a whitespace-only line does yield
the empty identifier, but the constructed protein path is root/_protein.pdb —
pathlib drops the empty path component — not the claimed root//_protein.pdb. -/
theorem c9_blank_line_counterexample :
    pyStrip " \t" = "" ∧
    proteinFile "root" (pyStrip " \t") = "root/_protein.pdb" ∧
    proteinFile "root" (pyStrip " \t") ≠
      "root" ++ "/" ++ "" ++ "/" ++ ("" ++ "_protein.pdb") :=
  ⟨rfl, rfl, by decide⟩

/-- C9 (amended): blank lines are not skipped — every line contributes its
stripped identifier to the work list, a whitespace-only line strips to the
empty string, and the paths built for the empty identifier are
<root>/_protein.pdb and <root>/_ligand.sdf, the empty component being dropped
by pathlib. -/
theorem c9_blank_lines_processed (fs : String → Option (List String))
    (args : Args) (lines : List String) (root l : String)
    (hfs : fs args.pdb_list_file = some lines)
    (hbl : args.blacklist_file = none)
    (hroot : strPath [root] = root) (h1 : root ≠ "/") (h2 : root ≠ ".")
    (hl : l ∈ lines) (hw : ∀ ch ∈ l.data, ch.isWhitespace) :
    driverPdbs fs args = Except.ok (lines.map pyStrip) ∧
    pyStrip l = "" ∧
    "" ∈ lines.map pyStrip ∧
    proteinFile root "" = root ++ "/_protein.pdb" ∧
    ligandFile root "" = root ++ "/_ligand.sdf" := by
  have hdrop : l.data.dropWhile Char.isWhitespace = [] :=
    List.dropWhile_eq_nil_iff.mpr (fun x hx => hw x hx)
  have hps : pyStrip l = "" := by
    unfold pyStrip
    rw [hdrop]
    rfl
  refine ⟨driverPdbs_no_blacklist fs args lines hfs hbl, hps,
    List.mem_map.mpr ⟨l, hl, hps⟩, ?_, ?_⟩
  · have habs : absSegs ["", "" ++ "_protein.pdb"] = (false, ["_protein.pdb"]) := rfl
    have hsp := strPath_root_parts root ["", "" ++ "_protein.pdb"]
      ["_protein.pdb"] hroot h1 h2 habs (by simp)
    rw [proteinFile, hsp]
    rw [show joinSegs ["_protein.pdb"] = "_protein.pdb" from rfl,
      String.append_assoc]
    rfl
  · have habs : absSegs ["", "" ++ "_ligand.sdf"] = (false, ["_ligand.sdf"]) := rfl
    have hsp := strPath_root_parts root ["", "" ++ "_ligand.sdf"]
      ["_ligand.sdf"] hroot h1 h2 habs (by simp)
    rw [ligandFile, hsp]
    rw [show joinSegs ["_ligand.sdf"] = "_ligand.sdf" from rfl,
      String.append_assoc]
    rfl

/-- Witness for the amended C9 at a concrete blank-line list file. -/
theorem c9_blank_lines_processed_witness :
    driverPdbs fsBlank (mkArgs none 1) = Except.ok ([" \t", ""].map pyStrip) ∧
    pyStrip " \t" = "" ∧
    "" ∈ [" \t", ""].map pyStrip ∧
    proteinFile "data" "" = "data" ++ "/_protein.pdb" ∧
    ligandFile "data" "" = "data" ++ "/_ligand.sdf" :=
  c9_blank_lines_processed fsBlank (mkArgs none 1) [" \t", ""] "data" " \t"
    rfl rfl rfl (by decide) (by decide) (by decide) (by decide)

/-- C10: repeated identifiers collapse — the output table's row labels are
pairwise distinct, the number of rows is the number of distinct identifiers in
the work list (not the number of lines), each listed identifier has a row, and
that row renders the binding of the identifier's last occurrence in the
zipped (identifier, result) sequence. -/
theorem c10_duplicate_ids_single_row (cpus : Nat) (tk : Toolkit)
    (fs : String → Option (List String)) (args : Args)
    (pdbs : List String) (results : List (List (String × Int)))
    (csv : Csv) (id : String)
    (hp : driverPdbs fs args = Except.ok pdbs)
    (hr : exMapM (featTask tk args.pdbbind_dir) pdbs = Except.ok results)
    (h : driverRun cpus tk fs args = Except.ok csv)
    (hid : id ∈ pdbs) :
    (csv.rows.map Prod.fst).Nodup ∧
    csv.rows.length = pdbs.toFinset.card ∧
    id ∈ csv.rows.map Prod.fst ∧
    dictGet id csv.rows =
      Option.map (fun r => csv.header.map (fun c => dictGet c r))
        (dictGet id ((pdbs.zip results).reverse)) := by
  obtain ⟨feats, hf, hcsv⟩ := driverRun_ok_decomp cpus tk fs args csv h
  obtain ⟨pdbs', results', hp', hr', hfeats⟩ :=
    driverFeatures_ok_decomp cpus tk fs args feats hf
  have hpe : pdbs' = pdbs := by
    rw [hp] at hp'
    injection hp' with x
    exact x.symm
  subst hpe
  have hre : results' = results := by
    rw [hr] at hr'
    injection hr' with x
    exact x.symm
  subst hre
  subst hcsv
  have hlen : pdbs'.length = results'.length :=
    (exMapM_ok_forall₂ _ _ _ hr).length_eq
  have hzipkeys : (pdbs'.zip results').map Prod.fst = pdbs' :=
    List.map_fst_zip _ _ (le_of_eq hlen)
  have hrowkeys : (dataFrameCsv feats).rows.map Prod.fst = insKeys [] pdbs' := by
    have hrf : (dataFrameCsv feats).rows.map Prod.fst = feats.map Prod.fst := by
      simp [dataFrameCsv]
    rw [hrf, hfeats, keys_dictOfPairs, hzipkeys]
  have hndk : (insKeys [] pdbs').Nodup := insKeys_nodup pdbs' [] List.nodup_nil
  have hfin : (insKeys [] pdbs').toFinset = pdbs'.toFinset := by
    rw [insKeys_toFinset pdbs' []]
    simp
  refine ⟨by rw [hrowkeys]; exact hndk, ?_, ?_, ?_⟩
  · have hll : (dataFrameCsv feats).rows.length =
        ((dataFrameCsv feats).rows.map Prod.fst).length :=
      (List.length_map _ _).symm
    rw [hll, hrowkeys, ← hfin]
    exact (List.toFinset_card_of_nodup hndk).symm
  · rw [hrowkeys]
    have hmem : id ∈ (insKeys [] pdbs').toFinset := by
      rw [hfin]
      exact List.mem_toFinset.mpr hid
    exact List.mem_toFinset.mp hmem
  · have hrows : dictGet id (dataFrameCsv feats).rows =
        Option.map (fun v => (colUnion feats).map (fun c => dictGet c v))
          (dictGet id feats) := by
      show dictGet id
          (feats.map (fun r => (r.1, (colUnion feats).map (fun c => dictGet c r.2)))) = _
      exact dictGet_map_value (fun v => (colUnion feats).map (fun c => dictGet c v))
        id feats
    rw [hrows, hfeats, dictGet_dictOfPairs]
    simp [dataFrameCsv]

/-- Witness for C10 at the duplicate-line run: one row for the two
occurrences of "1abc". -/
theorem c10_duplicate_ids_single_row_witness :
    ((⟨["6.6"], [("1abc", [some 3])]⟩ : Csv).rows.map Prod.fst).Nodup ∧
    (⟨["6.6"], [("1abc", [some 3])]⟩ : Csv).rows.length =
      (["1abc", "1abc"] : List String).toFinset.card ∧
    "1abc" ∈ (⟨["6.6"], [("1abc", [some 3])]⟩ : Csv).rows.map Prod.fst ∧
    dictGet "1abc" (⟨["6.6"], [("1abc", [some 3])]⟩ : Csv).rows =
      Option.map
        (fun r => (⟨["6.6"], [("1abc", [some 3])]⟩ : Csv).header.map
          (fun c => dictGet c r))
        (dictGet "1abc"
          (((["1abc", "1abc"] : List String).zip
            [[("6.6", (3 : Int))], [("6.6", 3)]]).reverse)) :=
  c10_duplicate_ids_single_row 4 sampleTk fsDup (mkArgs none 1)
    ["1abc", "1abc"] [[("6.6", 3)], [("6.6", 3)]]
    (⟨["6.6"], [("1abc", [some 3])]⟩ : Csv) "1abc" rfl rfl rfl (by decide)

end RFScore
